import Mathlib

/-!
Verification of the `ytmetasearch` tool (`src/main.rs`).

The program scans zstd-compressed text files line by line, matches every line
against a list of query groups (each an Aho-Corasick automaton built from
literal byte patterns with `ascii_case_insensitive(true)`), buffers matched
lines per group, flushes them to per-group output files, and records completed
files plus a cumulative line count in a JSON "management" (checkpoint) file.

Shallow embedding conventions:
* lines and patterns are byte lists (`List Nat`), matching the byte-level
  behaviour of Rust `str` / the `aho-corasick` crate;
* file paths are `String`s;
* fallible I/O is modelled by explicit parameters: a stream is a list of
  successfully read lines plus a flag saying whether it ended in a read error,
  and batch flushes consult an oracle `Nat → Option Nat` giving, for the k-th
  flush call of a file, `none` (all writes succeed) or `some j` (the (j+1)-th
  line write of that flush fails);
* the management line counter is a `u64` carried in a `Nat`; every addition
  the code performs into `c_lines` (the `+=` in `search_file`, in the rayon
  reduce closure and in the final merge) wraps and is modelled with an
  explicit `% 2 ^ 64`. The base value is parsed from an operator-supplied
  checkpoint file, so the whole `u64` range is reachable there. The loop-local
  `line_count` counts the lines of the modelled stream directly.
-/

namespace YtMetaSearch

/-- ASCII lower-casing of one byte, as performed by the automaton's
`ascii_case_insensitive` option: bytes 65..90 (`A`..`Z`) are shifted by 32;
all other bytes (including all non-ASCII UTF-8 bytes) are untouched. -/
def asciiLower (b : Nat) : Nat := if 65 ≤ b ∧ b ≤ 90 then b + 32 else b

/-- Positional multi-pattern scan: `subSearch pats hay` walks every suffix of
`hay` and reports whether some pattern of `pats` starts at that position.
This is the observable behaviour of the Aho-Corasick automaton of the
`aho-corasick` crate on already case-folded bytes. -/
def subSearch (pats : List (List Nat)) : List Nat → Bool
  | [] => pats.any List.isEmpty
  | h :: t => pats.any (fun p => p.isPrefixOf (h :: t)) || subSearch pats t

/-- Model of an `aho_corasick::AhoCorasick` automaton: the literal patterns it
was built from and whether `ascii_case_insensitive` was set. -/
structure AhoCorasick where
  patterns : List (List Nat)
  ascii_case_insensitive : Bool

/-- Case folding applied by the automaton to both patterns and haystack when
`ascii_case_insensitive` is set. -/
def foldCase (ci : Bool) (l : List Nat) : List Nat :=
  if ci then l.map asciiLower else l

/-- `AhoCorasick::is_match`: some pattern occurs in the haystack, after both
sides have been case folded according to the build option. -/
def AhoCorasick.is_match (ac : AhoCorasick) (line : List Nat) : Bool :=
  subSearch (ac.patterns.map (foldCase ac.ascii_case_insensitive))
    (foldCase ac.ascii_case_insensitive line)

/-- `main.rs` lines 180-187: each searcher is built from the group's
expressions with `ascii_case_insensitive(true)`. -/
def buildSearcher (expressions : List (List Nat)) : AhoCorasick :=
  { patterns := expressions, ascii_case_insensitive := true }

/-! ### Data model: queries and the management (checkpoint) record -/

/-- `struct Query { filename, expressions }` from `main.rs` lines 28-32;
expressions are literal byte patterns. -/
structure Query where
  filename : String
  expressions : List (List Nat)
deriving DecidableEq

/-- `struct Management { c_files, c_lines }` from `main.rs` lines 34-38:
the checkpoint record of completed files and the cumulative line counter.
`c_lines` carries a `u64` value; all additions into it below take an
explicit `% 2 ^ 64`, matching Rust's wrapping `u64` addition. -/
structure Management where
  c_files : List String
  c_lines : Nat
deriving DecidableEq

instance : Inhabited Management := ⟨⟨[], 0⟩⟩

/-- `Management::default()`: empty file list, zero counter. -/
def Management.default : Management := ⟨[], 0⟩

/-! ### The file scanner (`search_file`, `search_line`, `write_matches`)

Per-group sinks within one run are modelled as `List (List (List Nat))`:
for each query group, the list of byte lines appended to its output file so
far during this process run (the `BufWriter<File>` write stream). -/

/-- `search_line` from `main.rs` lines 40-44: one match flag per searcher,
in group order. -/
def search_line (line : List Nat) (queries : List AhoCorasick) : List Bool :=
  queries.map (fun q => q.is_match line)

/-- The loop of `main.rs` lines 101-107: walk the per-group match flags in
step with the per-group buffers, appending the line to each matching group's
buffer; returns the updated buffers and the number of groups pushed to
(the amount `match_count` grows by for this line). -/
def pushMatches (line : List Nat) :
    List Bool → List (List (List Nat)) → List (List (List Nat)) × Nat
  | _, [] => ([], 0)
  | [], ms => (ms, 0)
  | f :: fs, m :: ms =>
    let rest := pushMatches line fs ms
    ((if f then m ++ [line] else m) :: rest.1, (if f then 1 else 0) + rest.2)

/-- The inner loop of `write_matches` (`main.rs` lines 147-152): append the
batch lines one by one to one group's output stream. `budget` is the fault
model: `none` means every `write_all` succeeds, `some j` means `j` further
writes succeed and the next attempted write fails. Returns the remaining
budget, the group's new stream, and whether all writes succeeded. -/
def writeLines (budget : Option Nat) (lines file : List (List Nat)) :
    Option Nat × List (List Nat) × Bool :=
  match lines, budget with
  | [], b => (b, file, true)
  | _ :: _, some 0 => (some 0, file, false)
  | l :: ls, some (j + 1) => writeLines (some j) ls (file ++ [l])
  | l :: ls, none => writeLines none ls (file ++ [l])

/-- `write_matches` from `main.rs` lines 136-155: walk the groups in order
(zipping batches with sinks), appending each group's batch to its stream;
stop at the first failed write, leaving later groups untouched. The error
value carries the sink state after the partial write. -/
def write_matches (budget : Option Nat) :
    List (List (List Nat)) → List (List (List Nat)) →
    Except (List (List (List Nat))) (List (List (List Nat)))
  | [], sinks => .ok sinks
  | _ :: _, [] => .ok []
  | m :: ms, s :: ss =>
    match writeLines budget m s with
    | (b', s', true) =>
      match write_matches b' ms ss with
      | .ok rest => .ok (s' :: rest)
      | .error rest => .error (s' :: rest)
    | (_, s', false) => .error (s' :: ss)

/-- The mutable state of the read loop of `search_file`
(`main.rs` lines 77-119), together with the sink streams and the number of
flush calls made so far (used to index the fault oracle). -/
structure ScanState where
  line_count : Nat
  match_count : Nat
  matchesBuf : List (List (List Nat))
  sinks : List (List (List Nat))
  flushIdx : Nat
deriving DecidableEq

/-- One iteration of the read loop (`main.rs` lines 87-119) applied to a
successfully read line: compute the match flags, push the line into the
matching groups' buffers, and if `match_count` becomes exactly 1000, flush
the batch (clearing the buffers on success). A failed flush aborts the scan
(`Except.error`), carrying the partially written sink state. -/
def processLine (searchers : List AhoCorasick) (oracle : Nat → Option Nat)
    (line : List Nat) (st : ScanState) : Except ScanState ScanState :=
  let flags := search_line line searchers
  let pushed := pushMatches line flags st.matchesBuf
  let mc := st.match_count + pushed.2
  if mc = 1000 then
    match write_matches (oracle st.flushIdx) pushed.1 st.sinks with
    | .error sinks' =>
      .error { st with
                matchesBuf := pushed.1
                match_count := mc
                sinks := sinks'
                flushIdx := st.flushIdx + 1 }
    | .ok sinks' =>
      .ok { line_count := st.line_count + 1
            match_count := 0
            matchesBuf := pushed.1.map (fun _ => [])
            sinks := sinks'
            flushIdx := st.flushIdx + 1 }
  else
    .ok { st with
            line_count := st.line_count + 1
            match_count := mc
            matchesBuf := pushed.1 }

/-- The read loop over the lines the stream yields before EOF or a read
error. An `Except.error` means a flush failed mid-file. -/
def scanLines (searchers : List AhoCorasick) (oracle : Nat → Option Nat) :
    List (List Nat) → ScanState → Except ScanState ScanState
  | [], st => .ok st
  | l :: ls, st =>
    match processLine searchers oracle l st with
    | .error e => .error e
    | .ok st' => scanLines searchers oracle ls st'

/-- Loop state at entry (`main.rs` lines 77-86): zero counters and one empty
match buffer per query (`vec![Vec::new(); queries.len()]`). -/
def initState (nQueries : Nat) (sinks : List (List (List Nat))) : ScanState :=
  ⟨0, 0, List.replicate nQueries [], sinks, 0⟩

/-- `search_file` from `main.rs` lines 46-134. The decompressed stream is
modelled as the list of lines it yields (`fileLines`) followed by either a
natural EOF (`readErr = false`) or a mid-stream read error
(`readErr = true`); open/decoder failures behave like `([], true)`.
Returns the worker's sub-management and the sink streams: the file is pushed
onto `c_files` and its line count added to `c_lines` only when the stream
reached EOF and every flush (including the final one) succeeded. -/
def search_file (management sub : Management) (file_path : String)
    (queries : List Query) (searchers : List AhoCorasick)
    (oracle : Nat → Option Nat) (fileLines : List (List Nat))
    (readErr : Bool) (sinks : List (List (List Nat))) :
    Management × List (List (List Nat)) :=
  if management.c_files.contains file_path then (sub, sinks)
  else
    match scanLines searchers oracle fileLines (initState queries.length sinks) with
    | .error st => (sub, st.sinks)
    | .ok st =>
      if readErr then (sub, st.sinks)
      else if st.match_count > 0 then
        match write_matches (oracle st.flushIdx) st.matchesBuf st.sinks with
        | .error s => (sub, s)
        | .ok s =>
          (⟨sub.c_files ++ [file_path],
            (sub.c_lines + st.line_count) % 2 ^ 64⟩, s)
      else (⟨sub.c_files ++ [file_path],
        (sub.c_lines + st.line_count) % 2 ^ 64⟩, st.sinks)

/-- `true` exactly when `search_file` would take one of its flush-failure
exits on this input: the read loop aborted on a failed flush, or the final
flush of leftover matches failed. -/
def fileFlushFailed (nQueries : Nat) (searchers : List AhoCorasick)
    (oracle : Nat → Option Nat) (fileLines : List (List Nat))
    (sinks : List (List (List Nat))) : Bool :=
  match scanLines searchers oracle fileLines (initState nQueries sinks) with
  | .error _ => true
  | .ok st =>
    decide (st.match_count > 0) &&
      match write_matches (oracle st.flushIdx) st.matchesBuf st.sinks with
      | .error _ => true
      | .ok _ => false

/-! ### The merge of partial results (`main.rs` lines 225-233) -/

/-- The `reduce` closure of `main.rs` lines 225-229: concatenate completed
file lists and add the `u64` line counters (wrapping at `2 ^ 64`). -/
def reduceOp (sum cur : Management) : Management :=
  ⟨sum.c_files ++ cur.c_files, (sum.c_lines + cur.c_lines) % 2 ^ 64⟩

/-- The reduce step over all workers' sub-managements, starting from
`Management::default`. -/
def mergeReduce (partials : List Management) : Management :=
  partials.foldl reduceOp Management.default

/-- Lines 225-233 of `main.rs` as one function: reduce the partial results,
then extend the loaded base checkpoint with the result. -/
def mergeManagement (base : Management) (partials : List Management) :
    Management :=
  reduceOp base (mergeReduce partials)

/-! ### Output-file open semantics (`main.rs` lines 200-209) -/

/-- The subset of `std::fs::OpenOptions` flags the program touches. -/
structure OpenOptions where
  create : Bool
  write : Bool
  append : Bool
  truncate : Bool
deriving DecidableEq

/-- The exact options used for every output file in `main.rs` lines 203-206:
`create(true).write(true)` — `append` and `truncate` are never set. -/
def mainOpenOptions : OpenOptions :=
  { create := true, write := true, append := false, truncate := false }

/-- Opening a file: `prior` is its byte content before the run (`none` if the
file does not exist). Returns the content seen by the handle and the initial
write position, or `none` if the open fails (absent file without `create`).
Without `truncate`, existing bytes survive the open; without `append`, the
write position starts at offset 0. -/
def startState (opts : OpenOptions) (prior : Option (List Nat)) :
    Option (List Nat × Nat) :=
  match prior with
  | none => if opts.create then some ([], 0) else none
  | some c =>
    if opts.truncate then some ([], 0)
    else some (c, if opts.append then c.length else 0)

/-- `write_all` at a file position: bytes are written in place, overwriting
whatever was there, and the position advances. -/
def writeAll (st : List Nat × Nat) (data : List Nat) : List Nat × Nat :=
  (st.1.take st.2 ++ data ++ st.1.drop (st.2 + data.length),
   st.2 + data.length)

/-- Content of one output file after a run that performed the given sequence
of writes through a handle opened with `opts` on prior content `prior`. -/
def fileAfterRun (opts : OpenOptions) (prior : Option (List Nat))
    (writes : List (List Nat)) : Option (List Nat) :=
  (startState opts prior).map (fun st => (writes.foldl writeAll st).1)

/-! ### End of `main`: rendering and writing the checkpoint
(`main.rs` lines 236-248) -/

/-- Tail of `main`: `serde_json::to_string_pretty` (modelled by `renderM`,
`none` = serialization error), `create_dir_all` on the parent (`parentOk`),
and `fs::write` (`writeRes`). Each failure is propagated with `?`, so it
becomes the return value of `main`. `fs::write` opens the destination with
create+truncate and then writes: `writeRes = none` means the full rendered
string is written; `writeRes = some k` means the write fails after `k`
characters, leaving the file truncated to that prefix of the NEW rendering
(the previous content is already destroyed by the truncation). Returns
`main`'s result together with the management file's content after the
call. -/
def writeOutManagement (renderM : Management → Option String)
    (parentOk : Bool) (writeRes : Option Nat) (mgmtPrev : Option String)
    (m : Management) : Except String Unit × Option String :=
  match renderM m with
  | none => (.error "Error rendering management JSON", mgmtPrev)
  | some rendered =>
    if !parentOk then
      (.error "Error creating parent directory for management file", mgmtPrev)
    else
      match writeRes with
      | none => (.ok (), some rendered)
      | some k =>
        (.error "Error writing management file", some (rendered.take k))

/-! ### The whole of `main` (`main.rs` lines 157-249)

External collaborators (argument parsing, globbing, JSON parsing and
rendering, the filesystem) enter as fields of an environment. The rayon
`par_iter().fold(..).reduce(..)` over the files is modelled here by its
sequential schedule (one worker, files in list order); `runTree` below
models the general schedules. -/

structure Env where
  /-- `Path::new(&args.files_folder).is_dir()`. -/
  filesFolderIsDir : Bool
  /-- Result of globbing `files_folder/**/*.zst`; `none` = glob error. -/
  globResult : Option (List String)
  /-- `read_to_string(&args.query_json)`; `none` = read error. -/
  queryFileText : Option String
  /-- `serde_json::from_str::<Vec<Query>>`; `none` = parse error. -/
  parseQueries : String → Option (List Query)
  /-- `create_dir_all(&args.output_dir)` succeeded. -/
  createOutputDirOk : Bool
  /-- `args.output_dir` as a string, for joining output paths. -/
  outputDir : String
  /-- Management file content at start; `none` = the file does not exist. -/
  mgmtText : Option String
  /-- Reading plus `serde_json::from_str::<Management>`; `none` = error. -/
  parseMgmt : String → Option Management
  /-- Content of any pre-existing file at the given path. -/
  outContents : String → Option (List Nat)
  /-- Lines yielded by each input file's decompressed stream. -/
  fileLines : String → List (List Nat)
  /-- Whether each input file's stream ends in a read error. -/
  fileReadErr : String → Bool
  /-- Per-file flush fault oracle (see `writeLines`). -/
  flushOracle : String → Nat → Option Nat
  /-- `serde_json::to_string_pretty`; `none` = serialization error. -/
  renderMgmt : Management → Option String
  /-- `create_dir_all` on the management file's parent succeeded. -/
  mgmtParentDirOk : Bool
  /-- `fs::write(&args.management_file, ..)`: `none` = success, `some k` =
  failure after `k` characters of the new rendering were written (the file
  was already truncated). -/
  writeMgmtRes : Option Nat

/-- Result of a run of `main`: the process exit value, the management file's
content afterwards, and the content of every path afterwards. -/
structure MainOutcome where
  exit : Except String Unit
  mgmt : Option String
  outs : String → Option (List Nat)

/-- Final on-disk content of the output files: each query's file (at
`output_dir/filename`) was opened with `mainOpenOptions` — created empty if
absent, NOT truncated and NOT in append mode — and then received this run's
sink stream as consecutive writes. Other paths are untouched. Query
filenames are unique per the configuration contract. -/
def updateOuts (env : Env) (queries : List Query)
    (sinks : List (List (List Nat))) : String → Option (List Nat) :=
  fun name =>
    match (queries.zip sinks).find?
        (fun qs => env.outputDir ++ "/" ++ qs.1.filename == name) with
    | some qs => fileAfterRun mainOpenOptions (env.outContents name) qs.2
    | none => env.outContents name

/-- `main` from `main.rs` lines 157-249, with the scan loop in its
sequential schedule. Every `?`-propagated failure exits with that error and
leaves the management file as it was. -/
def mainRun (env : Env) : MainOutcome :=
  if !env.filesFolderIsDir then
    ⟨.error "Error: files_folder must be a directory", env.mgmtText, env.outContents⟩
  else
    match env.globResult with
    | none => ⟨.error "Error finding zst files", env.mgmtText, env.outContents⟩
    | some zstdFiles =>
      if zstdFiles.isEmpty then ⟨.ok (), env.mgmtText, env.outContents⟩
      else
        match env.queryFileText with
        | none => ⟨.error "Error opening query file", env.mgmtText, env.outContents⟩
        | some qtext =>
          match env.parseQueries qtext with
          | none => ⟨.error "Error parsing query file", env.mgmtText, env.outContents⟩
          | some queries =>
            let searchers := queries.map (fun q => buildSearcher q.expressions)
            if !env.createOutputDirOk then
              ⟨.error "Error creating output directory", env.mgmtText, env.outContents⟩
            else
              match (match env.mgmtText with
                     | some t => env.parseMgmt t
                     | none => some Management.default) with
              | none =>
                ⟨.error "Error parsing management file", env.mgmtText, env.outContents⟩
              | some management =>
                let sinks0 := queries.map (fun _ => ([] : List (List Nat)))
                let folded := zstdFiles.foldl
                  (fun acc f =>
                    search_file management acc.1 f queries searchers
                      (env.flushOracle f) (env.fileLines f)
                      (env.fileReadErr f) acc.2)
                  (Management.default, sinks0)
                let merged := reduceOp management folded.1
                let outs' := updateOuts env queries folded.2
                let tail := writeOutManagement env.renderMgmt
                  env.mgmtParentDirOk env.writeMgmtRes env.mgmtText merged
                ⟨tail.1, tail.2, outs'⟩

/-! ### The rayon fold/reduce over the file list (`main.rs` lines 213-229)

Rayon splits the file list into contiguous chunks, folds each chunk
sequentially starting from `Management::default`, and reduces adjacent
chunk results in order. A `ChunkTree` records one such partition/reduction
shape; its leaves, read left to right, are the chunks. -/

inductive ChunkTree where
  | leaf (chunk : List String) : ChunkTree
  | node (l r : ChunkTree) : ChunkTree

/-- The file list a chunk tree covers, in order. -/
def ChunkTree.flatten : ChunkTree → List String
  | .leaf c => c
  | .node l r => l.flatten ++ r.flatten

/-- The management contribution of one file in an error-free execution: the
fold step of `main.rs` lines 215-224 restricted to its management result,
with all flushes succeeding and the stream read to EOF. The sink argument is
fixed to empty streams; `search_file_fst_sink_independent` shows the
management result does not depend on it. -/
def scanStep (base : Management) (queries : List Query)
    (searchers : List AhoCorasick) (fileLines : String → List (List Nat))
    (sub : Management) (f : String) : Management :=
  (search_file base sub f queries searchers (fun _ => none) (fileLines f)
    false (queries.map (fun _ => []))).1

/-- One worker's fold over a chunk, then the pairwise reduce over the tree:
the set of executions of `main.rs` lines 213-229 in an error-free run. -/
def runTree (base : Management) (queries : List Query)
    (searchers : List AhoCorasick) (fileLines : String → List (List Nat)) :
    ChunkTree → Management
  | .leaf c => c.foldl (scanStep base queries searchers fileLines) Management.default
  | .node l r =>
    reduceOp (runTree base queries searchers fileLines l)
      (runTree base queries searchers fileLines r)

/-! ### Auxiliary observations used by the statements -/

/-- The value carried by an `Except` whose two sides have the same type
(the scanner uses the error side to carry the aborted state). -/
def exVal {α : Type} : Except α α → α
  | .ok a => a
  | .error a => a

/-- Total number of buffered matched lines across all groups — the quantity
`match_count` tracks. -/
def sumLens (ms : List (List (List Nat))) : Nat :=
  (ms.map List.length).sum

/-- Everything group `i` has accumulated: lines already flushed to its sink
plus lines still buffered. -/
def groupHist (st : ScanState) (i : Nat) : List (List Nat) :=
  st.sinks.getD i [] ++ st.matchesBuf.getD i []

/-- `b` extends `a` group-wise: same number of sinks, and every group's
stream in `a` is an initial segment of the one in `b` (nothing already
written is undone). -/
def SinksLe (a b : List (List (List Nat))) : Prop :=
  b.length = a.length ∧ ∀ i, a.getD i [] <+: b.getD i []

/-- Management contribution of one file in an error-free execution: nothing
if the checkpoint snapshot already lists it, otherwise the file itself and
its line count. -/
def fileDelta (base : Management) (fileLines : String → List (List Nat))
    (f : String) : Management :=
  if base.c_files.contains f then Management.default
  else ⟨[f], (fileLines f).length⟩

/-! ### Concrete instances used by counterexamples and witnesses -/

/-- Two query groups: patterns `"a"` and `"b"`. -/
def cexSearchers : List AhoCorasick :=
  [buildSearcher [[97]], buildSearcher [[98]]]

/-- One line matching only the first group, then 501 lines matching both:
the aggregate buffered count takes the values 1, 3, 5, ..., 1003 and never
equals 1000. -/
def cexLines : List (List Nat) :=
  [97] :: List.replicate 501 [97, 98]

/-- A one-group configuration used by witnesses. -/
def wQueries : List Query := [⟨"out", [[97]]⟩]

/-- Its searcher list, built as `main` builds it. -/
def wSearchers : List AhoCorasick := wQueries.map (fun q => buildSearcher q.expressions)

/-- An environment whose run reaches the end of scanning and then fails to
serialize the merged checkpoint (`renderMgmt` always fails). -/
def c3Env : Env :=
  { filesFolderIsDir := true
    globResult := some ["f"]
    queryFileText := some "q"
    parseQueries := fun _ => some wQueries
    createOutputDirOk := true
    outputDir := "out"
    mgmtText := some "oldcheckpoint"
    parseMgmt := fun _ => some Management.default
    outContents := fun _ => none
    fileLines := fun _ => [[97, 10]]
    fileReadErr := fun _ => false
    flushOracle := fun _ _ => none
    renderMgmt := fun _ => none
    mgmtParentDirOk := true
    writeMgmtRes := none }

/-- An environment in which globbing discovers zero `.zst` files. -/
def c8Env : Env :=
  { filesFolderIsDir := true
    globResult := some []
    queryFileText := some "q"
    parseQueries := fun _ => some wQueries
    createOutputDirOk := true
    outputDir := "out"
    mgmtText := some "oldcheckpoint"
    parseMgmt := fun _ => some Management.default
    outContents := fun _ => none
    fileLines := fun _ => []
    fileReadErr := fun _ => false
    flushOracle := fun _ _ => none
    renderMgmt := fun m => some (toString m.c_lines)
    mgmtParentDirOk := true
    writeMgmtRes := none }

/-! ## Theorems -/

/-! ### The positional scan decides substring containment -/

theorem isPrefixOf_eq_true (l₁ l₂ : List Nat) :
    l₁.isPrefixOf l₂ = true ↔ l₁ <+: l₂ := by
  induction l₁ generalizing l₂ with
  | nil => simp [List.isPrefixOf]
  | cons a t ih =>
    cases l₂ with
    | nil => simp [List.isPrefixOf]
    | cons b t₂ =>
      simp only [List.isPrefixOf, Bool.and_eq_true, beq_iff_eq, ih,
        List.cons_prefix_cons]

theorem infix_cons_split (p : List Nat) (a : Nat) (t : List Nat) :
    p <:+: (a :: t) ↔ p <+: (a :: t) ∨ p <:+: t := by
  constructor
  · rintro ⟨s, e, h⟩
    cases s with
    | nil => exact Or.inl ⟨e, h⟩
    | cons x s' =>
      right
      refine ⟨s', e, ?_⟩
      simpa using congrArg List.tail h
  · rintro (⟨e, h⟩ | ⟨s, e, h⟩)
    · exact ⟨[], e, h⟩
    · exact ⟨a :: s, e, by simp [← h]⟩

theorem subSearch_eq_true (pats : List (List Nat)) (hay : List Nat) :
    subSearch pats hay = true ↔ ∃ p ∈ pats, p <:+: hay := by
  induction hay with
  | nil =>
    simp only [subSearch, List.any_eq_true, List.isEmpty_iff]
    constructor
    · rintro ⟨p, hp, rfl⟩
      exact ⟨[], hp, [], [], rfl⟩
    · rintro ⟨p, hp, s, e, h⟩
      rcases List.append_eq_nil.mp (List.append_eq_nil.mp h).1 with ⟨-, rfl⟩
      exact ⟨[], hp, rfl⟩
  | cons a t ih =>
    simp only [subSearch, Bool.or_eq_true, List.any_eq_true, ih]
    constructor
    · rintro (⟨p, hp, h⟩ | ⟨p, hp, h⟩)
      · exact ⟨p, hp, (infix_cons_split p a t).mpr
          (Or.inl ((isPrefixOf_eq_true p (a :: t)).mp h))⟩
      · exact ⟨p, hp, (infix_cons_split p a t).mpr (Or.inr h)⟩
    · rintro ⟨p, hp, h⟩
      rcases (infix_cons_split p a t).mp h with h' | h'
      · exact Or.inl ⟨p, hp, (isPrefixOf_eq_true p (a :: t)).mpr h'⟩
      · exact Or.inr ⟨p, hp, h'⟩

theorem subSearch_nil (hay : List Nat) : subSearch [] hay = false := by
  induction hay with
  | nil => rfl
  | cons a t ih => simp [subSearch, ih]

/-- C4: the matcher built from a query group's literal patterns reports a
match on a line iff the line contains, ASCII-case-insensitively, at least
one of the patterns as a substring (at any position, not anchored), for a
pattern list of any size; and the matcher built from an empty pattern list
never matches. -/
theorem c4_matcher_substring (pats : List (List Nat)) (line : List Nat) :
    ((buildSearcher pats).is_match line = true ↔
      ∃ p ∈ pats, (p.map asciiLower) <:+: (line.map asciiLower)) ∧
    (buildSearcher []).is_match line = false := by
  constructor
  · rw [AhoCorasick.is_match, buildSearcher]
    simp only [foldCase, if_pos rfl, subSearch_eq_true, List.mem_map]
    constructor
    · rintro ⟨q, ⟨p, hp, rfl⟩, h⟩
      exact ⟨p, hp, h⟩
    · rintro ⟨p, hp, h⟩
      exact ⟨p.map asciiLower, ⟨p, hp, rfl⟩, h⟩
  · rw [AhoCorasick.is_match, buildSearcher]
    simpa using subSearch_nil _

/-! ### Merge of partial results -/

theorem mergeReduce_files_aux (partials : List Management) :
    ∀ acc : Management, (partials.foldl reduceOp acc).c_files
      = acc.c_files ++ (partials.map Management.c_files).flatten := by
  induction partials with
  | nil => intro acc; simp
  | cons p ps ih =>
    intro acc
    simp [List.foldl_cons, ih, reduceOp, List.append_assoc]

theorem mergeReduce_c_files (partials : List Management) :
    (mergeReduce partials).c_files = (partials.map Management.c_files).flatten := by
  simpa [Management.default] using mergeReduce_files_aux partials Management.default

theorem mergeReduce_clines_mod (partials : List Management) :
    ∀ acc : Management, (partials.foldl reduceOp acc).c_lines % 2 ^ 64
      = (acc.c_lines + (partials.map Management.c_lines).sum) % 2 ^ 64 := by
  induction partials with
  | nil => intro acc; simp
  | cons p ps ih =>
    intro acc
    rw [List.foldl_cons, ih (reduceOp acc p)]
    show ((acc.c_lines + p.c_lines) % 2 ^ 64 +
      (ps.map Management.c_lines).sum) % 2 ^ 64 = _
    rw [Nat.mod_add_mod]
    simp [Nat.add_assoc]

/-- C5 counterexample: `c_lines` is a `u64` and the base value is parsed
from the operator-supplied checkpoint file, so the whole `u64` range is
reachable; merging a base with counter `2 ^ 64 - 1` with one completed
1-line file wraps the counter to 0, violating the claimed monotonicity. -/
theorem c5_cex_wraparound :
    (mergeManagement ⟨[], 2 ^ 64 - 1⟩ [⟨["f"], 1⟩]).c_lines = 0 ∧
    ¬ ((Management.mk [] (2 ^ 64 - 1)).c_lines
        ≤ (mergeManagement ⟨[], 2 ^ 64 - 1⟩ [⟨["f"], 1⟩]).c_lines) := by
  constructor
  · rfl
  · decide

/-- C5 amended: the merged record's completed-file list always contains
every file of the base; the line counter is the `u64` wrapping sum of the
base counter and the partial results' counters, so it is at least the
base's whenever that mathematical sum stays below `2 ^ 64` (no overflow) —
true of every run whose counters track physically readable lines, but not
of an arbitrary operator-supplied base counter. -/
theorem c5_merge_monotone (base : Management) (partials : List Management) :
    base.c_files ⊆ (mergeManagement base partials).c_files ∧
    (mergeManagement base partials).c_lines
      = (base.c_lines + (partials.map Management.c_lines).sum) % 2 ^ 64 ∧
    (base.c_lines + (partials.map Management.c_lines).sum < 2 ^ 64 →
      base.c_lines ≤ (mergeManagement base partials).c_lines) := by
  have hsum : (mergeManagement base partials).c_lines
      = (base.c_lines + (partials.map Management.c_lines).sum) % 2 ^ 64 := by
    show (base.c_lines + (mergeReduce partials).c_lines) % 2 ^ 64 = _
    rw [← Nat.add_mod_mod base.c_lines ((mergeReduce partials).c_lines)]
    simp only [mergeReduce]
    rw [mergeReduce_clines_mod partials Management.default]
    show (base.c_lines + (0 + _) % 2 ^ 64) % 2 ^ 64 = _
    rw [Nat.zero_add, Nat.add_mod_mod]
  refine ⟨List.subset_append_left _ _, hsum, fun h => ?_⟩
  rw [hsum, Nat.mod_eq_of_lt h]
  exact Nat.le_add_right _ _

theorem c5_merge_monotone_witness :
    (Management.mk ["a"] 5).c_files
      ⊆ (mergeManagement ⟨["a"], 5⟩ [⟨["b"], 3⟩]).c_files ∧
    (mergeManagement ⟨["a"], 5⟩ [⟨["b"], 3⟩]).c_lines
      = ((Management.mk ["a"] 5).c_lines +
          (([⟨["b"], 3⟩] : List Management).map Management.c_lines).sum)
        % 2 ^ 64 ∧
    ((Management.mk ["a"] 5).c_lines +
        (([⟨["b"], 3⟩] : List Management).map Management.c_lines).sum
        < 2 ^ 64 →
      (Management.mk ["a"] 5).c_lines
        ≤ (mergeManagement ⟨["a"], 5⟩ [⟨["b"], 3⟩]).c_lines) :=
  c5_merge_monotone ⟨["a"], 5⟩ [⟨["b"], 3⟩]

/-- C9 counterexample: `merge` concatenates without deduplicating, so a base
record merged with two partial results that both completed the same file
identity `"f"` lists `"f"` twice. -/
theorem c9_cex_duplicate :
    (mergeManagement ⟨[], 0⟩ [⟨["f"], 1⟩, ⟨["f"], 1⟩]).c_files = ["f", "f"] ∧
    ¬ (mergeManagement ⟨[], 0⟩ [⟨["f"], 1⟩, ⟨["f"], 1⟩]).c_files.Nodup := by
  constructor
  · rfl
  · decide

/-- C9 amended: the merged record's completed-file list has no duplicates
provided the base list has none, the partial results' file lists have none
between them, and no partial result repeats a file of the base — the
situation the coordinator produces when the discovered file list is
duplicate-free, since the snapshot skip test keeps base files out of the
partial results. -/
theorem c9_merge_nodup (base : Management) (partials : List Management)
    (h1 : base.c_files.Nodup)
    (h2 : ((partials.map Management.c_files).flatten).Nodup)
    (h3 : ∀ f ∈ base.c_files, f ∉ (partials.map Management.c_files).flatten) :
    (mergeManagement base partials).c_files.Nodup := by
  have hfiles : (mergeManagement base partials).c_files
      = base.c_files ++ (partials.map Management.c_files).flatten := by
    show base.c_files ++ (mergeReduce partials).c_files = _
    rw [mergeReduce_c_files]
  rw [hfiles]
  exact List.Nodup.append h1 h2 (fun a ha hb => h3 a ha hb)

theorem c9_merge_nodup_witness :
    (Management.mk ["a"] 1).c_files.Nodup ∧
    ((([⟨["b"], 2⟩] : List Management).map Management.c_files).flatten).Nodup ∧
    (∀ f ∈ (Management.mk ["a"] 1).c_files,
      f ∉ (([⟨["b"], 2⟩] : List Management).map Management.c_files).flatten) ∧
    (mergeManagement ⟨["a"], 1⟩ [⟨["b"], 2⟩]).c_files.Nodup :=
  ⟨by decide, by decide, by decide,
    c9_merge_nodup ⟨["a"], 1⟩ [⟨["b"], 2⟩] (by decide) (by decide) (by decide)⟩

/-! ### Skipping completed files -/

/-- C7: a file listed in the loaded checkpoint snapshot is skipped: the
worker's sub-management and every sink are returned untouched, so the file
adds no output and no lines. -/
theorem c7_skip_noop (management sub : Management) (file_path : String)
    (queries : List Query) (searchers : List AhoCorasick)
    (oracle : Nat → Option Nat) (lines : List (List Nat)) (readErr : Bool)
    (sinks : List (List (List Nat)))
    (h : management.c_files.contains file_path = true) :
    search_file management sub file_path queries searchers oracle lines
      readErr sinks = (sub, sinks) := by
  have hm : file_path ∈ management.c_files := by simpa using h
  simp [search_file, hm]

theorem c7_skip_noop_witness :
    (Management.mk ["f"] 3).c_files.contains "f" = true ∧
    search_file ⟨["f"], 3⟩ ⟨[], 0⟩ "f" wQueries wSearchers (fun _ => none)
      [[97, 10]] false [[]] = (⟨[], 0⟩, [[]]) :=
  ⟨by decide,
    c7_skip_noop ⟨["f"], 3⟩ ⟨[], 0⟩ "f" wQueries wSearchers (fun _ => none)
      [[97, 10]] false [[]] (by decide)⟩

/-! ### Zero discovered files -/

/-- C8: when globbing discovers zero input files, `main` exits successfully
right away: the management file is never read or written (its content is
unchanged) and no output file is created or written. -/
theorem c8_empty_glob (env : Env) (h1 : env.filesFolderIsDir = true)
    (h2 : env.globResult = some []) :
    mainRun env = ⟨.ok (), env.mgmtText, env.outContents⟩ := by
  simp [mainRun, h1, h2]

theorem c8_empty_glob_witness :
    c8Env.filesFolderIsDir = true ∧ c8Env.globResult = some [] ∧
    mainRun c8Env = ⟨.ok (), c8Env.mgmtText, c8Env.outContents⟩ :=
  ⟨rfl, rfl, c8_empty_glob c8Env rfl rfl⟩

/-! ### Output files are opened without append mode -/

/-- C1: the output files are opened with `create(true).write(true)` only —
`append` is NOT set — so a run whose handle starts at offset 0 overwrites
bytes committed by earlier runs: writing `"x"` over a file holding `"abc"`
leaves `"xbc"`, whereas append mode would leave `"abcx"`. -/
theorem c1_no_append_overwrites :
    mainOpenOptions.append = false ∧ mainOpenOptions.truncate = false ∧
    mainOpenOptions.create = true ∧
    fileAfterRun mainOpenOptions (some [97, 98, 99]) [[120]]
      = some [120, 98, 99] ∧
    fileAfterRun { mainOpenOptions with append := true } (some [97, 98, 99])
      [[120]] = some [97, 98, 99, 120] := by
  refine ⟨rfl, rfl, rfl, rfl, rfl⟩

/-! ### Failure to write the final checkpoint -/

/-- C3 counterexample: in a run that scans one file successfully and then
fails to serialize the merged checkpoint, `main` returns the serialization
error — the process exits with failure, not success (the management file is
left unchanged). -/
theorem c3_cex_render_failure :
    (mainRun c3Env).exit = .error "Error rendering management JSON" ∧
    (mainRun c3Env).exit ≠ .ok () ∧
    (mainRun c3Env).mgmt = some "oldcheckpoint" := by
  refine ⟨rfl, ?_, rfl⟩
  show (Except.error "Error rendering management JSON" : Except String Unit)
    ≠ .ok ()
  intro h
  exact Except.noConfusion h

/-- C3 amended: every failure while rendering or writing the final
checkpoint propagates out of `main` — the run exits with failure, not
success. A failure before the file is opened (serialization, parent
directory) leaves the previous checkpoint content unchanged; a failure
during `fs::write` leaves the file truncated to the prefix of the NEW
rendering written so far, since `fs::write` truncates the destination
before writing. Either way the run's progress is lost for the next run. -/
theorem c3_checkpoint_write_failure (renderM : Management → Option String)
    (parentOk : Bool) (writeRes : Option Nat) (mgmtPrev : Option String)
    (m : Management) :
    ((writeOutManagement renderM parentOk writeRes mgmtPrev m).1 = .ok () ↔
      (renderM m).isSome = true ∧ parentOk = true ∧ writeRes = none) ∧
    ((renderM m = none ∨ parentOk = false) →
      (writeOutManagement renderM parentOk writeRes mgmtPrev m).2 = mgmtPrev) ∧
    (∀ rendered k, renderM m = some rendered → parentOk = true →
      writeRes = some k →
      (writeOutManagement renderM parentOk writeRes mgmtPrev m).1
          = .error "Error writing management file" ∧
      (writeOutManagement renderM parentOk writeRes mgmtPrev m).2
          = some (rendered.take k)) ∧
    (∀ rendered, renderM m = some rendered → parentOk = true →
      writeRes = none →
      (writeOutManagement renderM parentOk writeRes mgmtPrev m).2
          = some rendered) := by
  rcases hr : renderM m with _ | r <;> cases parentOk <;>
    rcases writeRes with _ | k <;>
    simp [writeOutManagement, hr]

/-! ### Sinks only ever grow; errors stop a file's scan -/

theorem sinksLe_refl (a : List (List (List Nat))) : SinksLe a a :=
  ⟨rfl, fun _ => List.prefix_refl _⟩

theorem sinksLe_trans {a b c : List (List (List Nat))}
    (h₁ : SinksLe a b) (h₂ : SinksLe b c) : SinksLe a c :=
  ⟨h₂.1.trans h₁.1, fun i => (h₁.2 i).trans (h₂.2 i)⟩

theorem sinksLe_cons {s s' : List (List Nat)}
    {ss ss' : List (List (List Nat))} (h : s <+: s') (hrest : SinksLe ss ss') :
    SinksLe (s :: ss) (s' :: ss') := by
  refine ⟨by simp [hrest.1], fun i => ?_⟩
  cases i with
  | zero => simpa using h
  | succ n => simpa using hrest.2 n

theorem writeLines_sink_extends (budget : Option Nat) (ls f : List (List Nat)) :
    ∃ δ, (writeLines budget ls f).2.1 = f ++ δ := by
  induction ls generalizing budget f with
  | nil => exact ⟨[], by simp [writeLines]⟩
  | cons l ls ih =>
    match budget with
    | none =>
      obtain ⟨δ, hδ⟩ := ih none (f ++ [l])
      exact ⟨l :: δ, by simpa [writeLines, List.append_assoc] using hδ⟩
    | some 0 => exact ⟨[], by simp [writeLines]⟩
    | some (j + 1) =>
      obtain ⟨δ, hδ⟩ := ih (some j) (f ++ [l])
      exact ⟨l :: δ, by simpa [writeLines, List.append_assoc] using hδ⟩

theorem write_matches_le (ms : List (List (List Nat))) :
    ∀ (budget : Option Nat) (ss : List (List (List Nat))),
      SinksLe ss (exVal (write_matches budget ms ss)) := by
  induction ms with
  | nil => intro budget ss; exact sinksLe_refl ss
  | cons m ms ih =>
    intro budget ss
    cases ss with
    | nil => exact sinksLe_refl []
    | cons s ss' =>
      obtain ⟨δ, hδ⟩ := writeLines_sink_extends budget m s
      show SinksLe (s :: ss')
        (exVal (match writeLines budget m s with
          | (b', s', true) =>
            match write_matches b' ms ss' with
            | .ok rest => .ok (s' :: rest)
            | .error rest => .error (s' :: rest)
          | (_, s', false) => .error (s' :: ss')))
      rcases hw : writeLines budget m s with ⟨b', s', ok⟩
      have hpre : s <+: s' := by
        rw [hw] at hδ
        exact ⟨δ, hδ.symm⟩
      cases ok with
      | true =>
        show SinksLe (s :: ss')
          (exVal (match write_matches b' ms ss' with
            | .ok rest => .ok (s' :: rest)
            | .error rest => .error (s' :: rest)))
        have hrest := ih b' ss'
        cases hrec : write_matches b' ms ss' with
        | ok rest =>
          rw [hrec] at hrest
          exact sinksLe_cons hpre hrest
        | error rest =>
          rw [hrec] at hrest
          exact sinksLe_cons hpre hrest
      | false => exact sinksLe_cons hpre (sinksLe_refl ss')

theorem processLine_le (searchers : List AhoCorasick)
    (oracle : Nat → Option Nat) (line : List Nat) (st : ScanState) :
    SinksLe st.sinks (exVal (processLine searchers oracle line st)).sinks := by
  rw [processLine]
  split
  · have h := write_matches_le
      (pushMatches line (search_line line searchers) st.matchesBuf).1
      (oracle st.flushIdx) st.sinks
    cases hw : write_matches (oracle st.flushIdx)
        (pushMatches line (search_line line searchers) st.matchesBuf).1
        st.sinks with
    | ok sinks' =>
      rw [hw] at h
      simpa [exVal] using h
    | error sinks' =>
      rw [hw] at h
      simpa [exVal] using h
  · exact sinksLe_refl _

theorem scanLines_le (searchers : List AhoCorasick)
    (oracle : Nat → Option Nat) (ls : List (List Nat)) :
    ∀ st : ScanState,
      SinksLe st.sinks (exVal (scanLines searchers oracle ls st)).sinks := by
  induction ls with
  | nil => intro st; exact sinksLe_refl _
  | cons l ls ih =>
    intro st
    have h₁ := processLine_le searchers oracle l st
    cases hp : processLine searchers oracle l st with
    | error e =>
      rw [hp] at h₁
      simpa [scanLines, hp, exVal] using h₁
    | ok st' =>
      rw [hp] at h₁
      have h₂ := ih st'
      simpa [scanLines, hp] using sinksLe_trans h₁ h₂

theorem scanLines_absorb (searchers : List AhoCorasick)
    (oracle : Nat → Option Nat) (ls : List (List Nat)) :
    ∀ (ls₂ : List (List Nat)) (st : ScanState) (e : ScanState),
      scanLines searchers oracle ls st = .error e →
      scanLines searchers oracle (ls ++ ls₂) st = .error e := by
  induction ls with
  | nil =>
    intro ls₂ st e h
    simp [scanLines] at h
  | cons l ls ih =>
    intro ls₂ st e h
    rw [scanLines] at h
    cases hp : processLine searchers oracle l st with
    | error e' =>
      rw [hp] at h
      rw [List.cons_append, scanLines, hp]
      exact h
    | ok st' =>
      rw [hp] at h
      rw [List.cons_append, scanLines, hp]
      exact ih ls₂ st' e h

/-- C6: a file whose scan hits a mid-stream read error or whose flushes
fail contributes nothing: the worker's sub-management is returned untouched
(so the file is never added to `c_files` and its lines never reach
`c_lines` through the merge), everything already flushed to the sinks stays
(each group's stream is only extended), and a scan aborted by a flush
failure ignores all lines after the failing one. -/
theorem c6_error_excludes (management sub : Management) (path : String)
    (queries : List Query) (searchers : List AhoCorasick)
    (oracle : Nat → Option Nat) (lines : List (List Nat)) (readErr : Bool)
    (sinks : List (List (List Nat)))
    (h : readErr = true ∨
      fileFlushFailed queries.length searchers oracle lines sinks = true) :
    (search_file management sub path queries searchers oracle lines readErr
      sinks).1 = sub ∧
    SinksLe sinks (search_file management sub path queries searchers oracle
      lines readErr sinks).2 ∧
    ∀ (ls₂ : List (List Nat)) (st e : ScanState),
      scanLines searchers oracle lines st = .error e →
      scanLines searchers oracle (lines ++ ls₂) st = .error e := by
  have main : (search_file management sub path queries searchers oracle lines
      readErr sinks).1 = sub ∧
      SinksLe sinks (search_file management sub path queries searchers oracle
        lines readErr sinks).2 := by
    cases hcont : management.c_files.contains path with
    | true =>
      have hm : path ∈ management.c_files := by simpa using hcont
      have hsf : search_file management sub path queries searchers oracle
          lines readErr sinks = (sub, sinks) := by
        simp [search_file, hm]
      rw [hsf]
      exact ⟨rfl, sinksLe_refl sinks⟩
    | false =>
      have hsle := scanLines_le searchers oracle lines
        (initState queries.length sinks)
      cases hscan : scanLines searchers oracle lines
          (initState queries.length sinks) with
      | error st =>
        have hsf : search_file management sub path queries searchers oracle
            lines readErr sinks = (sub, st.sinks) := by
          simp only [search_file]
          rw [hcont]
          simp only [Bool.false_eq_true, if_false]
          rw [hscan]
        rw [hscan] at hsle
        rw [hsf]
        exact ⟨rfl, hsle⟩
      | ok st =>
        rw [hscan] at hsle
        cases hre : readErr with
        | true =>
          subst hre
          have hsf : search_file management sub path queries searchers oracle
              lines true sinks = (sub, st.sinks) := by
            simp only [search_file]
            rw [hcont]
            simp only [Bool.false_eq_true, if_false]
            rw [hscan]
            simp
          rw [hsf]
          exact ⟨rfl, hsle⟩
        | false =>
          subst hre
          rcases h with h | h
          · exact absurd h (by simp)
          · unfold fileFlushFailed at h
            rw [hscan] at h
            have h' : (decide (st.match_count > 0) &&
                match write_matches (oracle st.flushIdx) st.matchesBuf
                    st.sinks with
                | .error _ => true
                | .ok _ => false) = true := h
            rw [Bool.and_eq_true] at h'
            have hmc : st.match_count > 0 := by simpa using h'.1
            have hw := h'.2
            cases hwm : write_matches (oracle st.flushIdx) st.matchesBuf
                st.sinks with
            | ok s =>
              rw [hwm] at hw
              simp at hw
            | error s =>
              have hle2 := write_matches_le st.matchesBuf (oracle st.flushIdx)
                st.sinks
              rw [hwm] at hle2
              have hsf : search_file management sub path queries searchers
                  oracle lines false sinks = (sub, s) := by
                simp only [search_file]
                rw [hcont]
                simp only [Bool.false_eq_true, if_false]
                rw [hscan]
                simp only [Bool.false_eq_true, if_false, if_pos hmc, hwm]
              rw [hsf]
              exact ⟨rfl, sinksLe_trans hsle hle2⟩
  exact ⟨main.1, main.2,
    fun ls₂ st e hh => scanLines_absorb searchers oracle lines ls₂ st e hh⟩

theorem c6_error_excludes_witness :
    ((true : Bool) = true ∨
      fileFlushFailed wQueries.length wSearchers (fun _ => none) [[97, 10]]
        [[]] = true) ∧
    ((search_file ⟨[], 0⟩ ⟨["x"], 7⟩ "f" wQueries wSearchers (fun _ => none)
        [[97, 10]] true [[]]).1 = ⟨["x"], 7⟩ ∧
      SinksLe [[]] (search_file ⟨[], 0⟩ ⟨["x"], 7⟩ "f" wQueries wSearchers
        (fun _ => none) [[97, 10]] true [[]]).2 ∧
      ∀ (ls₂ : List (List Nat)) (st e : ScanState),
        scanLines wSearchers (fun _ => none) [[97, 10]] st = .error e →
        scanLines wSearchers (fun _ => none) ([[97, 10]] ++ ls₂) st = .error e) :=
  ⟨Or.inl rfl,
    c6_error_excludes ⟨[], 0⟩ ⟨["x"], 7⟩ "f" wQueries wSearchers
      (fun _ => none) [[97, 10]] true [[]] (Or.inl rfl)⟩

/-! ### The error-free scan: structural lemmas -/

theorem is_match_nil (line : List Nat) :
    (buildSearcher []).is_match line = false := by
  rw [AhoCorasick.is_match, buildSearcher]
  simpa using subSearch_nil _

theorem sumLens_cons (m : List (List Nat)) (ms : List (List (List Nat))) :
    sumLens (m :: ms) = m.length + sumLens ms := by
  simp [sumLens]

theorem sumLens_map_nil (ms : List (List (List Nat))) :
    sumLens (ms.map (fun _ => ([] : List (List Nat)))) = 0 := by
  induction ms with
  | nil => rfl
  | cons m ms ih => simpa [sumLens_cons] using ih

theorem sumLens_replicate (n : Nat) :
    sumLens (List.replicate n ([] : List (List Nat))) = 0 := by
  induction n with
  | zero => rfl
  | succ n ih => simpa [List.replicate_succ, sumLens_cons] using ih

theorem sumLens_zero_getD (ms : List (List (List Nat))) (h : sumLens ms = 0) :
    ∀ i, ms.getD i [] = [] := by
  induction ms with
  | nil => intro i; simp
  | cons m ms ih =>
    rw [sumLens_cons] at h
    have hm : m = [] := List.length_eq_zero.mp (by omega)
    intro i
    cases i with
    | zero => simpa using hm
    | succ n => simpa using ih (by omega) n

theorem getD_map_nil (ms : List (List (List Nat))) :
    ∀ i, (ms.map (fun _ => ([] : List (List Nat)))).getD i [] = [] := by
  induction ms with
  | nil => intro i; simp
  | cons m ms ih =>
    intro i
    cases i with
    | zero => rfl
    | succ n => simpa using ih n

theorem getD_replicate_nil (n : Nat) :
    ∀ i, (List.replicate n ([] : List (List Nat))).getD i [] = [] := by
  induction n with
  | zero => intro i; simp
  | succ n ih =>
    intro i
    cases i with
    | zero => simp [List.replicate_succ]
    | succ m => simpa [List.replicate_succ] using ih m

theorem getD_zipWith_append :
    ∀ (a b : List (List (List Nat))), a.length = b.length →
      ∀ i, (List.zipWith (fun s m => s ++ m) a b).getD i []
        = a.getD i [] ++ b.getD i [] := by
  intro a
  induction a with
  | nil =>
    intro b h i
    have : b = [] := List.length_eq_zero.mp (by simpa using h.symm)
    subst this
    simp
  | cons x a ih =>
    intro b h i
    cases b with
    | nil => simp at h
    | cons y b =>
      cases i with
      | zero => rfl
      | succ n => simpa using ih b (by simpa using h) n

theorem pushMatches_length (line : List Nat) :
    ∀ (flags : List Bool) (ms : List (List (List Nat))),
      (pushMatches line flags ms).1.length = ms.length := by
  intro flags
  induction flags with
  | nil => intro ms; cases ms <;> simp [pushMatches]
  | cons f fs ih =>
    intro ms
    cases ms with
    | nil => simp [pushMatches]
    | cons m ms' => simp [pushMatches, ih ms']

theorem pushMatches_sumLens (line : List Nat) :
    ∀ (flags : List Bool) (ms : List (List (List Nat))),
      sumLens (pushMatches line flags ms).1
        = sumLens ms + (pushMatches line flags ms).2 := by
  intro flags
  induction flags with
  | nil => intro ms; cases ms <;> simp [pushMatches]
  | cons f fs ih =>
    intro ms
    cases ms with
    | nil => simp [pushMatches, sumLens]
    | cons m ms' =>
      cases f <;> simp [pushMatches, sumLens_cons, ih ms'] <;> omega

theorem pushMatches_getD (line : List Nat) :
    ∀ (flags : List Bool) (ms : List (List (List Nat))),
      flags.length = ms.length →
      ∀ i, (pushMatches line flags ms).1.getD i []
        = ms.getD i [] ++ (if flags.getD i false then [line] else []) := by
  intro flags
  induction flags with
  | nil =>
    intro ms h i
    have : ms = [] := List.length_eq_zero.mp (by simpa using h.symm)
    subst this
    simp [pushMatches]
  | cons f fs ih =>
    intro ms h i
    cases ms with
    | nil => simp at h
    | cons m ms' =>
      cases i with
      | zero => cases f <;> simp [pushMatches]
      | succ n => simpa [pushMatches] using ih ms' (by simpa using h) n

theorem search_line_getD (line : List Nat) :
    ∀ (searchers : List AhoCorasick) (i : Nat),
      (search_line line searchers).getD i false
        = (searchers.getD i (buildSearcher [])).is_match line := by
  intro searchers
  induction searchers with
  | nil => intro i; simp [search_line, is_match_nil]
  | cons s ss ih =>
    intro i
    cases i with
    | zero => rfl
    | succ n => simpa [search_line] using ih n

theorem writeLines_none (ls : List (List Nat)) :
    ∀ f : List (List Nat), writeLines none ls f = (none, f ++ ls, true) := by
  induction ls with
  | nil => intro f; simp [writeLines]
  | cons l ls ih =>
    intro f
    rw [writeLines, ih (f ++ [l])]
    simp

theorem write_matches_none_eq :
    ∀ (ms ss : List (List (List Nat))), ms.length = ss.length →
      write_matches none ms ss
        = .ok (List.zipWith (fun s m => s ++ m) ss ms) := by
  intro ms
  induction ms with
  | nil =>
    intro ss h
    have : ss = [] := List.length_eq_zero.mp (by simpa using h.symm)
    subst this
    rfl
  | cons m ms ih =>
    intro ss h
    cases ss with
    | nil => simp at h
    | cons s ss' =>
      have hrec := ih ss' (by simpa using h)
      show (match writeLines none m s with
        | (b', s', true) =>
          match write_matches b' ms ss' with
          | Except.ok rest => Except.ok (s' :: rest)
          | Except.error rest => Except.error (s' :: rest)
        | (_, s', false) => Except.error (s' :: ss')) = _
      rw [writeLines_none]
      show (match write_matches none ms ss' with
        | Except.ok rest => Except.ok ((s ++ m) :: rest)
        | Except.error rest => Except.error ((s ++ m) :: rest)) = _
      rw [hrec]
      rfl

/-- One loop iteration under an all-writes-succeed oracle: the line count
grows by one, `match_count` keeps tracking the total buffered lines, and
group `i`'s flushed-plus-buffered history grows by exactly the line when
searcher `i` matches it. The batch is flushed (and the buffers cleared)
exactly when the counter lands on 1000; otherwise the sinks are untouched. -/
theorem processLine_char (searchers : List AhoCorasick) (line : List Nat)
    (st : ScanState)
    (hc : st.match_count = sumLens st.matchesBuf)
    (hm : st.matchesBuf.length = searchers.length)
    (hs : st.sinks.length = searchers.length) :
    ∃ st', processLine searchers (fun _ => none) line st = .ok st'
      ∧ st'.line_count = st.line_count + 1
      ∧ st'.match_count = sumLens st'.matchesBuf
      ∧ st'.matchesBuf.length = searchers.length
      ∧ st'.sinks.length = searchers.length
      ∧ (∀ i, groupHist st' i = groupHist st i ++
          (if (searchers.getD i (buildSearcher [])).is_match line
           then [line] else []))
      ∧ (st.match_count +
            (pushMatches line (search_line line searchers) st.matchesBuf).2
            = 1000 →
          st'.match_count = 0 ∧ sumLens st'.matchesBuf = 0 ∧
          ∀ i, st'.sinks.getD i [] = st.sinks.getD i [] ++
            (pushMatches line (search_line line searchers) st.matchesBuf).1.getD
              i [])
      ∧ (st.match_count +
            (pushMatches line (search_line line searchers) st.matchesBuf).2
            ≠ 1000 →
          st'.match_count = st.match_count +
            (pushMatches line (search_line line searchers) st.matchesBuf).2 ∧
          st'.sinks = st.sinks) := by
  have hflen : (search_line line searchers).length = st.matchesBuf.length := by
    simp [search_line, hm]
  have hplen :
      (pushMatches line (search_line line searchers) st.matchesBuf).1.length
        = searchers.length := by
    rw [pushMatches_length]
    exact hm
  by_cases hhit : st.match_count +
      (pushMatches line (search_line line searchers) st.matchesBuf).2 = 1000
  · have hwm := write_matches_none_eq
      (pushMatches line (search_line line searchers) st.matchesBuf).1 st.sinks
      (by rw [hplen, hs])
    refine ⟨⟨st.line_count + 1, 0,
      (pushMatches line (search_line line searchers) st.matchesBuf).1.map
        (fun _ => []),
      List.zipWith (fun s m => s ++ m) st.sinks
        (pushMatches line (search_line line searchers) st.matchesBuf).1,
      st.flushIdx + 1⟩, ?_, rfl, ?_, ?_, ?_, ?_, ?_, ?_⟩
    · simp only [processLine]
      rw [if_pos hhit, hwm]
    · exact (sumLens_map_nil _).symm
    · simp [hplen]
    · simp [List.length_zipWith, hs, hplen]
    · intro i
      show (List.zipWith (fun s m => s ++ m) st.sinks
          (pushMatches line (search_line line searchers) st.matchesBuf).1).getD
            i [] ++
        ((pushMatches line (search_line line searchers)
          st.matchesBuf).1.map (fun _ => [])).getD i [] = _
      rw [getD_map_nil, List.append_nil,
        getD_zipWith_append st.sinks _ (by rw [hs, hplen]) i,
        pushMatches_getD line _ _ hflen i, search_line_getD]
      simp [groupHist, List.append_assoc]
    · intro _
      refine ⟨rfl, sumLens_map_nil _, fun i => ?_⟩
      exact getD_zipWith_append st.sinks _ (by rw [hs, hplen]) i
    · intro hne
      exact absurd hhit hne
  · refine ⟨⟨st.line_count + 1,
      st.match_count +
        (pushMatches line (search_line line searchers) st.matchesBuf).2,
      (pushMatches line (search_line line searchers) st.matchesBuf).1,
      st.sinks, st.flushIdx⟩, ?_, rfl, ?_, hplen, hs, ?_, ?_, ?_⟩
    · simp only [processLine]
      rw [if_neg hhit]
    · show st.match_count +
        (pushMatches line (search_line line searchers) st.matchesBuf).2 = _
      rw [pushMatches_sumLens line (search_line line searchers) st.matchesBuf,
        hc]
    · intro i
      show st.sinks.getD i [] ++
        (pushMatches line (search_line line searchers)
          st.matchesBuf).1.getD i [] = _
      rw [pushMatches_getD line _ _ hflen i, search_line_getD]
      simp [groupHist, List.append_assoc]
    · intro habs
      exact absurd habs hhit
    · intro _
      exact ⟨rfl, rfl⟩

/-- The whole read loop under an all-writes-succeed oracle: no abort, one
line counted per input line, and each group's flushed-plus-buffered history
grows by exactly the lines its searcher matches, in input order. -/
theorem scanLines_char (searchers : List AhoCorasick) (ls : List (List Nat)) :
    ∀ st : ScanState, st.match_count = sumLens st.matchesBuf →
      st.matchesBuf.length = searchers.length →
      st.sinks.length = searchers.length →
      ∃ st', scanLines searchers (fun _ => none) ls st = .ok st'
        ∧ st'.line_count = st.line_count + ls.length
        ∧ st'.match_count = sumLens st'.matchesBuf
        ∧ st'.matchesBuf.length = searchers.length
        ∧ st'.sinks.length = searchers.length
        ∧ ∀ i, groupHist st' i = groupHist st i ++
            ls.filter (fun l => (searchers.getD i (buildSearcher [])).is_match l) := by
  induction ls with
  | nil =>
    intro st hc hm hs
    exact ⟨st, rfl, by simp, hc, hm, hs, fun i => by simp⟩
  | cons l ls ih =>
    intro st hc hm hs
    obtain ⟨st₁, hp, hlc₁, hc₁, hm₁, hs₁, hg₁, -, -⟩ :=
      processLine_char searchers l st hc hm hs
    obtain ⟨st', hsc, hlc', hc', hm', hs', hg'⟩ := ih st₁ hc₁ hm₁ hs₁
    refine ⟨st', ?_, ?_, hc', hm', hs', ?_⟩
    · rw [scanLines, hp]
      exact hsc
    · rw [hlc', hlc₁]
      simp [Nat.add_assoc, Nat.add_comm 1 ls.length]
    · intro i
      rw [hg' i, hg₁ i]
      cases hmatch : (searchers.getD i (buildSearcher [])).is_match l with
      | true =>
        rw [List.filter_cons_of_pos (by simpa using hmatch)]
        simp [List.append_assoc]
      | false =>
        rw [List.filter_cons_of_neg (by simpa using hmatch)]
        simp

/-- `search_file` on a not-yet-completed file, error-free: the file is
appended to the sub-management's completed list, its full line count is
added, and each group's sink receives exactly the lines that group matched,
in file order, after everything the sink already held. -/
theorem search_file_none_char (management sub : Management) (path : String)
    (queries : List Query) (searchers : List AhoCorasick)
    (lines : List (List Nat)) (sinks : List (List (List Nat)))
    (hq : searchers.length = queries.length)
    (hsk : sinks.length = queries.length)
    (hskip : management.c_files.contains path = false) :
    ∃ ss', search_file management sub path queries searchers (fun _ => none)
        lines false sinks
        = (⟨sub.c_files ++ [path],
            (sub.c_lines + lines.length) % 2 ^ 64⟩, ss')
      ∧ ss'.length = queries.length
      ∧ ∀ i, ss'.getD i [] = sinks.getD i [] ++
          lines.filter
            (fun l => (searchers.getD i (buildSearcher [])).is_match l) := by
  obtain ⟨st', hscan, hlc, hc, hm, hs, hg⟩ :=
    scanLines_char searchers lines (initState queries.length sinks)
      (by simp [initState, sumLens_replicate])
      (by simp [initState, hq])
      (by simpa [initState] using hsk.trans hq.symm)
  have hg0 : ∀ i, groupHist (initState queries.length sinks) i
      = sinks.getD i [] := by
    intro i
    show sinks.getD i [] ++
      (List.replicate queries.length ([] : List (List Nat))).getD i [] = _
    rw [getD_replicate_nil, List.append_nil]
  have hlc0 : st'.line_count = lines.length := by
    simpa [initState] using hlc
  by_cases hmc : st'.match_count > 0
  · have hwm := write_matches_none_eq st'.matchesBuf st'.sinks
      (by rw [hm, hs])
    refine ⟨List.zipWith (fun s m => s ++ m) st'.sinks st'.matchesBuf,
      ?_, ?_, ?_⟩
    · simp only [search_file]
      rw [hskip]
      simp only [Bool.false_eq_true, if_false]
      rw [hscan]
      simp only [Bool.false_eq_true, if_false, if_pos hmc, hwm, hlc0]
    · simp [List.length_zipWith, hs, hm, hq]
    · intro i
      rw [getD_zipWith_append st'.sinks st'.matchesBuf (by rw [hs, hm]) i]
      have := hg i
      rw [hg0 i] at this
      exact this
  · have hz : st'.match_count = 0 := by omega
    have hbuf : ∀ i, st'.matchesBuf.getD i [] = [] :=
      sumLens_zero_getD st'.matchesBuf (by rw [← hc, hz])
    refine ⟨st'.sinks, ?_, by rw [hs, hq], ?_⟩
    · simp only [search_file]
      rw [hskip]
      simp only [Bool.false_eq_true, if_false]
      rw [hscan]
      simp only [Bool.false_eq_true, if_false, if_neg hmc, hlc0]
    · intro i
      have := hg i
      rw [hg0 i] at this
      rw [groupHist, hbuf i, List.append_nil] at this
      exact this

/-! ### Batch-flush timing -/

/-- C2 counterexample: the code flushes only when `match_count == 1000`
exactly (`main.rs` line 109), and one line can add one match per group.
With groups `"a"` and `"b"`, a first line `"a"` and then 501 lines `"ab"`,
the buffered count runs 1, 3, ..., 999, 1001, 1003: it reaches (exceeds)
1000 on the 501st line, yet after all 502 lines the scan has made zero
flush calls (`flushIdx = 0`), the sinks are untouched and 1003 matched
lines are still buffered — refuting "flushed whenever the aggregate
reaches 1000" and "no batch ever holds 1000 or more buffered lines past
the line on which the threshold was reached". -/
theorem c2_cex_jump_over_1000 :
    (scanLines cexSearchers (fun _ => none) cexLines
        (initState 2 [[], []])).toOption.map
      (fun st => (st.match_count, st.flushIdx, st.sinks))
      = some (1003, 0, [[], []]) := by
  set_option maxRecDepth 20000 in rfl

/-- C2 amended: the batch is flushed (and cleared) when the aggregate
buffered count becomes EXACTLY 1000 after a line; a line matching several
groups can jump the counter over 1000, in which case nothing is flushed
until end of stream. In an error-free scan, everything still buffered at
end of stream is flushed once, so every matched line reaches its group's
sink exactly once, in file order. -/
theorem c2_flush_semantics (queries : List Query)
    (searchers : List AhoCorasick)
    (hq : searchers.length = queries.length) :
    (∀ (st : ScanState) (line : List Nat),
      st.match_count = sumLens st.matchesBuf →
      st.matchesBuf.length = searchers.length →
      st.sinks.length = searchers.length →
      ∃ st', processLine searchers (fun _ => none) line st = .ok st' ∧
        (st.match_count +
            (pushMatches line (search_line line searchers) st.matchesBuf).2
            = 1000 →
          st'.match_count = 0 ∧ sumLens st'.matchesBuf = 0 ∧
          ∀ i, st'.sinks.getD i [] = st.sinks.getD i [] ++
            (pushMatches line (search_line line searchers)
              st.matchesBuf).1.getD i []) ∧
        (st.match_count +
            (pushMatches line (search_line line searchers) st.matchesBuf).2
            ≠ 1000 →
          st'.match_count = st.match_count +
            (pushMatches line (search_line line searchers) st.matchesBuf).2 ∧
          st'.sinks = st.sinks)) ∧
    (∀ (management sub : Management) (path : String)
        (lines : List (List Nat)) (sinks : List (List (List Nat))),
      sinks.length = queries.length →
      management.c_files.contains path = false →
      ∃ ss', search_file management sub path queries searchers
          (fun _ => none) lines false sinks
          = (⟨sub.c_files ++ [path],
              (sub.c_lines + lines.length) % 2 ^ 64⟩, ss')
        ∧ ss'.length = queries.length
        ∧ ∀ i, ss'.getD i [] = sinks.getD i [] ++
            lines.filter
              (fun l => (searchers.getD i (buildSearcher [])).is_match l)) := by
  constructor
  · intro st line hc hm hs
    obtain ⟨st', h1, -, -, -, -, -, h7, h8⟩ :=
      processLine_char searchers line st hc hm hs
    exact ⟨st', h1, h7, h8⟩
  · intro management sub path lines sinks hsk hskip
    exact search_file_none_char management sub path queries searchers lines
      sinks hq hsk hskip

theorem c2_flush_semantics_witness :
    wSearchers.length = wQueries.length ∧
    ((∀ (st : ScanState) (line : List Nat),
      st.match_count = sumLens st.matchesBuf →
      st.matchesBuf.length = wSearchers.length →
      st.sinks.length = wSearchers.length →
      ∃ st', processLine wSearchers (fun _ => none) line st = .ok st' ∧
        (st.match_count +
            (pushMatches line (search_line line wSearchers) st.matchesBuf).2
            = 1000 →
          st'.match_count = 0 ∧ sumLens st'.matchesBuf = 0 ∧
          ∀ i, st'.sinks.getD i [] = st.sinks.getD i [] ++
            (pushMatches line (search_line line wSearchers)
              st.matchesBuf).1.getD i []) ∧
        (st.match_count +
            (pushMatches line (search_line line wSearchers) st.matchesBuf).2
            ≠ 1000 →
          st'.match_count = st.match_count +
            (pushMatches line (search_line line wSearchers) st.matchesBuf).2 ∧
          st'.sinks = st.sinks)) ∧
    (∀ (management sub : Management) (path : String)
        (lines : List (List Nat)) (sinks : List (List (List Nat))),
      sinks.length = wQueries.length →
      management.c_files.contains path = false →
      ∃ ss', search_file management sub path wQueries wSearchers
          (fun _ => none) lines false sinks
          = (⟨sub.c_files ++ [path],
              (sub.c_lines + lines.length) % 2 ^ 64⟩, ss')
        ∧ ss'.length = wQueries.length
        ∧ ∀ i, ss'.getD i [] = sinks.getD i [] ++
            lines.filter
              (fun l => (wSearchers.getD i (buildSearcher [])).is_match l))) :=
  ⟨rfl, c2_flush_semantics wQueries wSearchers rfl⟩

/-! ### Determinism of the parallel fold/reduce -/

theorem search_file_contains (management sub : Management) (path : String)
    (queries : List Query) (searchers : List AhoCorasick)
    (oracle : Nat → Option Nat) (lines : List (List Nat)) (readErr : Bool)
    (sinks : List (List (List Nat)))
    (h : management.c_files.contains path = true) :
    search_file management sub path queries searchers oracle lines readErr
      sinks = (sub, sinks) := by
  have hm : path ∈ management.c_files := by simpa using h
  simp [search_file, hm]

theorem default_clines_lt : Management.default.c_lines < 2 ^ 64 := by
  show (0 : Nat) < 2 ^ 64
  positivity

theorem reduceOp_default_right (m : Management) (h : m.c_lines < 2 ^ 64) :
    reduceOp m Management.default = m := by
  cases m
  simp only [reduceOp, Management.default, List.append_nil, Nat.add_zero]
  rw [Nat.mod_eq_of_lt h]

theorem reduceOp_default_collapse (b c : Management) :
    reduceOp (reduceOp Management.default b) c = reduceOp b c := by
  simp [reduceOp, Management.default, Nat.mod_add_mod]

theorem reduceOp_assoc (a b c : Management) :
    reduceOp (reduceOp a b) c = reduceOp a (reduceOp b c) := by
  simp [reduceOp, List.append_assoc, Nat.mod_add_mod, Nat.add_mod_mod,
    Nat.add_assoc]

theorem reduceOp_clines_lt (a b : Management) :
    (reduceOp a b).c_lines < 2 ^ 64 :=
  Nat.mod_lt _ (by positivity)

theorem scanStep_delta (base : Management) (queries : List Query)
    (searchers : List AhoCorasick) (fileLines : String → List (List Nat))
    (hq : searchers.length = queries.length) (sub : Management) (f : String)
    (hsub : sub.c_lines < 2 ^ 64) :
    scanStep base queries searchers fileLines sub f
      = reduceOp sub (fileDelta base fileLines f) := by
  cases hcont : base.c_files.contains f with
  | true =>
    have hm : f ∈ base.c_files := by simpa using hcont
    have hd : fileDelta base fileLines f = Management.default := by
      simp [fileDelta, hm, hcont]
    rw [scanStep,
      search_file_contains base sub f queries searchers (fun _ => none)
        (fileLines f) false (queries.map (fun _ => [])) hcont,
      hd, reduceOp_default_right sub hsub]
  | false =>
    obtain ⟨ss', heq, -, -⟩ := search_file_none_char base sub f queries
      searchers (fileLines f) (queries.map (fun _ => [])) hq (by simp) hcont
    have hm : f ∉ base.c_files := by simpa using hcont
    rw [scanStep, heq]
    simp [fileDelta, hm, reduceOp]

theorem foldl_scanStep_lt (base : Management) (queries : List Query)
    (searchers : List AhoCorasick) (fileLines : String → List (List Nat))
    (hq : searchers.length = queries.length) :
    ∀ (fs : List String) (acc : Management), acc.c_lines < 2 ^ 64 →
      (fs.foldl (scanStep base queries searchers fileLines) acc).c_lines
        < 2 ^ 64 := by
  intro fs
  induction fs with
  | nil => intro acc h; simpa using h
  | cons f fs ih =>
    intro acc h
    rw [List.foldl_cons]
    refine ih (scanStep base queries searchers fileLines acc f) ?_
    rw [scanStep_delta base queries searchers fileLines hq acc f h]
    exact reduceOp_clines_lt _ _

theorem foldl_scanStep_shift (base : Management) (queries : List Query)
    (searchers : List AhoCorasick) (fileLines : String → List (List Nat))
    (hq : searchers.length = queries.length) :
    ∀ (fs : List String) (acc : Management), acc.c_lines < 2 ^ 64 →
      fs.foldl (scanStep base queries searchers fileLines) acc
        = reduceOp acc
            (fs.foldl (scanStep base queries searchers fileLines)
              Management.default) := by
  intro fs
  induction fs with
  | nil =>
    intro acc h
    simp only [List.foldl_nil]
    exact (reduceOp_default_right acc h).symm
  | cons f fs ih =>
    intro acc h
    have hstep : (scanStep base queries searchers fileLines acc f).c_lines
        < 2 ^ 64 := by
      rw [scanStep_delta base queries searchers fileLines hq acc f h]
      exact reduceOp_clines_lt _ _
    have hstep0 :
        (scanStep base queries searchers fileLines Management.default
          f).c_lines < 2 ^ 64 := by
      rw [scanStep_delta base queries searchers fileLines hq
        Management.default f default_clines_lt]
      exact reduceOp_clines_lt _ _
    rw [List.foldl_cons, List.foldl_cons]
    rw [ih (scanStep base queries searchers fileLines acc f) hstep]
    rw [ih (scanStep base queries searchers fileLines Management.default f)
      hstep0]
    rw [scanStep_delta base queries searchers fileLines hq acc f h]
    rw [scanStep_delta base queries searchers fileLines hq Management.default
      f default_clines_lt]
    rw [reduceOp_default_collapse]
    rw [reduceOp_assoc]

theorem runTree_eq_seq (base : Management) (queries : List Query)
    (searchers : List AhoCorasick) (fileLines : String → List (List Nat))
    (hq : searchers.length = queries.length) :
    ∀ t : ChunkTree, runTree base queries searchers fileLines t
      = (t.flatten).foldl (scanStep base queries searchers fileLines)
          Management.default := by
  intro t
  induction t with
  | leaf c => rfl
  | node l r ihl ihr =>
    have hl : (List.foldl (scanStep base queries searchers fileLines)
        Management.default l.flatten).c_lines < 2 ^ 64 :=
      foldl_scanStep_lt base queries searchers fileLines hq l.flatten
        Management.default default_clines_lt
    show reduceOp (runTree base queries searchers fileLines l)
      (runTree base queries searchers fileLines r) = _
    rw [ihl, ihr, ChunkTree.flatten, List.foldl_append,
      foldl_scanStep_shift base queries searchers fileLines hq r.flatten
        (List.foldl (scanStep base queries searchers fileLines)
          Management.default l.flatten) hl]

/-- C10: in an error-free execution, the merged management record is
independent of how rayon partitions the file list into chunks and reduces
the chunk results (any two reduction trees over the same file sequence give
the same record), and a file's management contribution does not depend on
the sink state its worker happens to observe — the only state that differs
between schedules. -/
theorem c10_schedule_independent (base : Management) (queries : List Query)
    (fileLines : String → List (List Nat)) (t₁ t₂ : ChunkTree)
    (h : t₁.flatten = t₂.flatten) :
    runTree base queries (queries.map fun q => buildSearcher q.expressions)
        fileLines t₁
      = runTree base queries
          (queries.map fun q => buildSearcher q.expressions) fileLines t₂
    ∧ ∀ (sub : Management) (f : String)
        (sinks sinks' : List (List (List Nat))),
        sinks.length = queries.length → sinks'.length = queries.length →
        (search_file base sub f queries
          (queries.map fun q => buildSearcher q.expressions) (fun _ => none)
          (fileLines f) false sinks).1
        = (search_file base sub f queries
          (queries.map fun q => buildSearcher q.expressions) (fun _ => none)
          (fileLines f) false sinks').1 := by
  have hq : (queries.map fun q => buildSearcher q.expressions).length
      = queries.length := by simp
  constructor
  · rw [runTree_eq_seq base queries _ fileLines hq t₁,
      runTree_eq_seq base queries _ fileLines hq t₂, h]
  · intro sub f sinks sinks' h1 h2
    cases hcont : base.c_files.contains f with
    | true =>
      rw [search_file_contains base sub f queries _ (fun _ => none)
          (fileLines f) false sinks hcont,
        search_file_contains base sub f queries _ (fun _ => none)
          (fileLines f) false sinks' hcont]
    | false =>
      obtain ⟨ssa, ha, -, -⟩ := search_file_none_char base sub f queries _
        (fileLines f) sinks hq h1 hcont
      obtain ⟨ssb, hb, -, -⟩ := search_file_none_char base sub f queries _
        (fileLines f) sinks' hq h2 hcont
      rw [ha, hb]

theorem c10_schedule_independent_witness :
    (ChunkTree.node (.leaf ["f1"]) (.leaf ["f2"])).flatten
      = (ChunkTree.leaf ["f1", "f2"]).flatten ∧
    (runTree ⟨[], 0⟩ wQueries
        (wQueries.map fun q => buildSearcher q.expressions)
        (fun _ => [[97, 10]]) (ChunkTree.node (.leaf ["f1"]) (.leaf ["f2"]))
      = runTree ⟨[], 0⟩ wQueries
          (wQueries.map fun q => buildSearcher q.expressions)
          (fun _ => [[97, 10]]) (ChunkTree.leaf ["f1", "f2"])
    ∧ ∀ (sub : Management) (f : String)
        (sinks sinks' : List (List (List Nat))),
        sinks.length = wQueries.length → sinks'.length = wQueries.length →
        (search_file ⟨[], 0⟩ sub f wQueries
          (wQueries.map fun q => buildSearcher q.expressions) (fun _ => none)
          ((fun _ => [[97, 10]]) f) false sinks).1
        = (search_file ⟨[], 0⟩ sub f wQueries
          (wQueries.map fun q => buildSearcher q.expressions) (fun _ => none)
          ((fun _ => [[97, 10]]) f) false sinks').1) :=
  ⟨rfl, c10_schedule_independent ⟨[], 0⟩ wQueries (fun _ => [[97, 10]])
    (ChunkTree.node (.leaf ["f1"]) (.leaf ["f2"]))
    (ChunkTree.leaf ["f1", "f2"]) rfl⟩

end YtMetaSearch
